import Mathlib

/-!
Verification of the factorio-mod-locale-parser ingestion pipeline (src/main.py).

The Python source is shallowly embedded: dictionaries become association
lists (`List (key × value)`) preserving insertion order, Python strings are
compared code-point-lexicographically via explicit character-list functions
(Lean's built-in `String` order does not evaluate in the kernel), fallible
code returns `Except`, and the on-disk state touched by
`save_mod_settings_data` is an explicit record of the target path and its
`.bak` sibling.
-/

/-! ### Python string primitives (code-point lexicographic order, as `str` comparison) -/

/-- Python `a < b` on single characters: code-point comparison. -/
def pyCharLt (a b : Char) : Bool := a.toNat < b.toNat

/-- Python `a <= b` on strings, on their character lists. -/
def pyListLe : List Char → List Char → Bool
  | [], _ => true
  | _ :: _, [] => false
  | a :: as, b :: bs => if a = b then pyListLe as bs else pyCharLt a b

/-- Python `a < b` on strings, on their character lists. -/
def pyListLt : List Char → List Char → Bool
  | [], [] => false
  | [], _ :: _ => true
  | _ :: _, [] => false
  | a :: as, b :: bs => if a = b then pyListLt as bs else pyCharLt a b

/-- Python `a <= b` for strings. -/
def pyStrLe (a b : String) : Bool := pyListLe a.data b.data

/-- Python `a < b` for strings. -/
def pyStrLt (a b : String) : Bool := pyListLt a.data b.data

/-- Python `max(iterable)` over a nonempty list of strings: the current value
is replaced exactly when the next item is strictly greater. -/
def pyStrMaxList (v : String) (vs : List String) : String :=
  vs.foldl (fun c x => if pyStrLt c x then x else c) v

/-! ### C2 — consecutive-bad-archive counter of `iterate_zip_files_from_api`

Each catalog item processed by the generator is one of: a version-skip
(`should_skip` was true), a cache hit (archive rebuilt from the local cache,
no download), a good download (`get_zip_from_api` returned `bad_zip = False`,
which includes the no-download-url case), or a corrupted download
(`bad_zip = True`).  Only the download outcomes touch the counter. -/

inductive FetchEvent where
  | skip
  | cacheHit
  | apiGood
  | apiBad
deriving DecidableEq

/-- One loop iteration of `iterate_zip_files_from_api` acting on
`bad_zip_file_consecutive_count`; `Except.error` is the fatal
"did you provide a valid username and token?" exception.  The source checks
`bad_zip_file_consecutive_count > 3` *before* incrementing. -/
def iterate_zip_step (c : Nat) : FetchEvent → Except Unit Nat
  | .skip => .ok c
  | .cacheHit => .ok c
  | .apiGood => .ok 0
  | .apiBad => if c > 3 then .error () else .ok (c + 1)

/-- Running `iterate_zip_files_from_api` over a whole sequence of item
outcomes, threading the counter; the final counter is returned on success. -/
def iterate_zip_run : Nat → List FetchEvent → Except Unit Nat
  | c, [] => .ok c
  | c, e :: rest =>
    match iterate_zip_step c e with
    | .error u => .error u
    | .ok c2 => iterate_zip_run c2 rest

/-- The subsequence of download outcomes (`true` = corrupted). -/
def download_flags : List FetchEvent → List Bool
  | [] => []
  | .apiBad :: r => true :: download_flags r
  | .apiGood :: r => false :: download_flags r
  | .skip :: r => download_flags r
  | .cacheHit :: r => download_flags r

/-- Length of the leading run of `true` flags. -/
def lead_true : List Bool → Nat
  | true :: r => lead_true r + 1
  | _ => 0

/-- Whether the flag list contains five consecutive `true`s, i.e. five
consecutive corrupted downloads. -/
def has_bad_run : List Bool → Bool
  | [] => false
  | b :: r => decide (5 ≤ lead_true (b :: r)) || has_bad_run r

/-- Counter automaton on the download subsequence alone. -/
def bad_count_aborts : Nat → List Bool → Bool
  | _, [] => false
  | c, true :: r => if c > 3 then true else bad_count_aborts (c + 1) r
  | _, false :: r => bad_count_aborts 0 r

lemma run_error_iff_flags :
    ∀ (evs : List FetchEvent) (c : Nat),
      iterate_zip_run c evs = Except.error () ↔
        bad_count_aborts c (download_flags evs) = true := by
  intro evs
  induction evs with
  | nil => intro c; simp [iterate_zip_run, download_flags, bad_count_aborts]
  | cons e rest ih =>
    intro c
    cases e with
    | skip => simpa [iterate_zip_run, iterate_zip_step, download_flags] using ih c
    | cacheHit => simpa [iterate_zip_run, iterate_zip_step, download_flags] using ih c
    | apiGood => simpa [iterate_zip_run, iterate_zip_step, download_flags, bad_count_aborts] using ih 0
    | apiBad =>
      by_cases hc : c > 3
      · simp [iterate_zip_run, iterate_zip_step, download_flags, bad_count_aborts, hc]
      · simpa [iterate_zip_run, iterate_zip_step, download_flags, bad_count_aborts, hc] using ih (c + 1)

lemma has_bad_run_of_lead (bs : List Bool) (h : 5 ≤ lead_true bs) :
    has_bad_run bs = true := by
  cases bs with
  | nil => simp [lead_true] at h
  | cons b r => simp [has_bad_run]; left; exact h

lemma aborts_iff_bad_run :
    ∀ (bs : List Bool) (c : Nat), c ≤ 4 →
      (bad_count_aborts c bs = true ↔
        5 ≤ c + lead_true bs ∨ has_bad_run bs = true) := by
  intro bs
  induction bs with
  | nil =>
    intro c hc
    simp [bad_count_aborts, lead_true, has_bad_run]
    omega
  | cons b r ih =>
    intro c hc
    have hbr : (has_bad_run (b :: r) = true) ↔
        (5 ≤ lead_true (b :: r) ∨ has_bad_run r = true) := by
      rw [show has_bad_run (b :: r)
            = (decide (5 ≤ lead_true (b :: r)) || has_bad_run r) from rfl]
      simp
    rw [hbr]
    cases b with
    | true =>
      have hlt : lead_true (true :: r) = lead_true r + 1 := rfl
      rw [hlt]
      by_cases h3 : c > 3
      · constructor
        · intro _; left; omega
        · intro _; simp [bad_count_aborts, h3]
      · have hstep : bad_count_aborts c (true :: r) = bad_count_aborts (c + 1) r := by
          simp [bad_count_aborts, h3]
        rw [hstep, ih (c + 1) (by omega)]
        constructor
        · rintro (h | h)
          · left; omega
          · right; right; exact h
        · rintro (h | (h | h))
          · left; omega
          · left; omega
          · right; exact h
    | false =>
      have hlt : lead_true (false :: r) = 0 := rfl
      rw [hlt]
      have hstep : bad_count_aborts c (false :: r) = bad_count_aborts 0 r := by
        simp [bad_count_aborts]
      rw [hstep, ih 0 (by omega)]
      constructor
      · rintro (h | h)
        · right; right; exact has_bad_run_of_lead r (by omega)
        · right; right; exact h
      · rintro (h | (h | h))
        · exact absurd h (by omega)
        · exact absurd h (by omega)
        · right; exact h

/-- C2 counterexample: a run consisting of exactly four consecutive corrupted
downloads completes with `Except.ok` (final counter 4); the fatal
invalid-credentials error is NOT raised, contradicting the claim that four
consecutive corrupted downloads abort the run. -/
theorem four_bad_archives_do_not_abort :
    iterate_zip_run 0 (List.replicate 4 FetchEvent.apiBad) = Except.ok 4 := rfl

/-- C2 (amended): every corrupted download increments the counter (the counter
never exceeds 4 on a non-aborted run, and is at most 3 when the increment
happens), every good download resets it to zero, and the fatal
invalid-credentials error is raised exactly when the run contains five
consecutive corrupted downloads — because the source tests `count > 3`
before incrementing.  In particular five consecutive corrupted downloads
abort the run and any run whose longest streak of consecutive corrupted
downloads is at most four raises no fatal error. -/
theorem bad_archive_threshold_aborts_at_five :
    (∀ c : Nat, c ≤ 3 → iterate_zip_step c FetchEvent.apiBad = Except.ok (c + 1)) ∧
    (∀ c : Nat, iterate_zip_step c FetchEvent.apiGood = Except.ok 0) ∧
    (iterate_zip_run 0 (List.replicate 5 FetchEvent.apiBad) = Except.error ()) ∧
    (∀ evs : List FetchEvent,
      iterate_zip_run 0 evs = Except.error () ↔
        has_bad_run (download_flags evs) = true) := by
  refine ⟨?_, ?_, rfl, ?_⟩
  · intro c hc
    simp [iterate_zip_step]
    omega
  · intro c
    simp [iterate_zip_step]
  · intro evs
    rw [run_error_iff_flags evs 0]
    rw [aborts_iff_bad_run (download_flags evs) 0 (by omega)]
    constructor
    · rintro (h | h)
      · exact has_bad_run_of_lead _ (by omega)
      · exact h
    · intro h
      right; exact h

/-- Witness for C2's theorem at concrete inputs. -/
theorem bad_archive_threshold_witness :
    iterate_zip_step 2 FetchEvent.apiBad = Except.ok 3 ∧
    (iterate_zip_run 0 [FetchEvent.apiBad, FetchEvent.apiGood] = Except.error () ↔
      has_bad_run (download_flags [FetchEvent.apiBad, FetchEvent.apiGood]) = true) :=
  ⟨bad_archive_threshold_aborts_at_five.1 2 (by decide),
   bad_archive_threshold_aborts_at_five.2.2.2 [FetchEvent.apiBad, FetchEvent.apiGood]⟩

/-! ### Data model of the aggregate artifact (`save_mod_settings_data`) -/

/-- One `by_mod_and_language[mod][locale]` leaf. -/
structure LocaleEntry where
  mod : String
  locale : String
  label : String
  description : String
deriving DecidableEq

/-- One value of the `settings` map (`locale_data`). -/
structure SettingData where
  name : String
  by_mod_and_language : List (String × List (String × LocaleEntry))
deriving DecidableEq

/-- One value of the `mods` map (`mod_data`). -/
structure ModRec where
  name : String
  title : String
  version : Option String
  setting_names : List String
deriving DecidableEq

/-- The JSON object written by `save_mod_settings_data`. -/
structure Artifact where
  core : Option (List (String × List (String × String)))
  locales : List String
  mods : List (String × ModRec)
  settings : List (String × SettingData)
deriving DecidableEq

/-- Insertion sort by Python string order — models `sorted(...)`. -/
def insertSortedStr (x : String) : List String → List String
  | [] => [x]
  | y :: ys => if pyStrLe x y then x :: y :: ys else y :: insertSortedStr x ys

/-- Models Python `sorted(iterable)` for strings. -/
def sortStrings (l : List String) : List String := l.foldr insertSortedStr []

lemma mem_insertSortedStr (x y : String) (l : List String) :
    y ∈ insertSortedStr x l ↔ y = x ∨ y ∈ l := by
  induction l with
  | nil => simp [insertSortedStr]
  | cons z zs ih =>
    by_cases h : pyStrLe x z
    · simp [insertSortedStr, h]
    · simp [insertSortedStr, h, ih]
      tauto

lemma mem_sortStrings (y : String) (l : List String) :
    y ∈ sortStrings l ↔ y ∈ l := by
  induction l with
  | nil => simp [sortStrings]
  | cons z zs ih =>
    simp only [sortStrings, List.foldr] at ih ⊢
    rw [mem_insertSortedStr, ih, List.mem_cons]

/-- The `locales` field computed by `save_mod_settings_data`:
`sorted({locale for ... for ... for locale in by_mod_and_language} | set(by_locale or {}))`. -/
def save_locales (locale_data : List (String × SettingData))
    (by_locale : Option (List (String × List (String × String)))) : List String :=
  sortStrings
    ((locale_data.flatMap
        (fun p => p.2.by_mod_and_language.flatMap (fun q => q.2.map (fun r => r.1)))
      ++ (by_locale.getD []).map (fun c => c.1)).dedup)

/-- The object passed to `json.dump` by `save_mod_settings_data`: in
non-temporary (final) mode `mod_data` is filtered to packages with a
non-empty `setting_names`; in temporary mode it is written as-is. -/
def save_mod_settings_payload (mod_data : List (String × ModRec))
    (locale_data : List (String × SettingData))
    (by_locale : Option (List (String × List (String × String))))
    (temporary : Bool) : Artifact :=
  { core := by_locale
    locales := save_locales locale_data by_locale
    mods :=
      if temporary then mod_data
      else mod_data.filter (fun p => !p.2.setting_names.isEmpty)
    settings := locale_data }

/-- C5: a final (non-temporary) persist never includes a package with an empty
`setting_names` list in the written `mods` map, while a temporary
(checkpoint) persist includes every package record unchanged. -/
theorem persist_final_filters_settingless_mods :
    (∀ md ld bl p, p ∈ (save_mod_settings_payload md ld bl false).mods →
      p.2.setting_names ≠ []) ∧
    (∀ md ld bl, (save_mod_settings_payload md ld bl true).mods = md) := by
  constructor
  · intro md ld bl p hp hnil
    simp [save_mod_settings_payload, List.mem_filter, hnil] at hp
  · intro md ld bl
    simp [save_mod_settings_payload]

/-- Witness for C5's theorem at a concrete input. -/
theorem persist_final_filters_settingless_mods_witness :
    (("m", ({ name := "m", title := "t", version := none,
              setting_names := ["s"] } : ModRec)) :
        String × ModRec).2.setting_names ≠ [] :=
  persist_final_filters_settingless_mods.1
    [("m", { name := "m", title := "t", version := none, setting_names := ["s"] })]
    [] none
    ("m", { name := "m", title := "t", version := none, setting_names := ["s"] })
    (by decide)

/-- C6: the `locales` field of the final artifact contains a language id iff
it appears as a key of some setting's `by_mod_and_language[mod]` map or as a
key of the core locale map — it is recomputed from those structures. -/
theorem final_locales_eq_union :
    ∀ md ld bl l, l ∈ (save_mod_settings_payload md ld bl false).locales ↔
      ((∃ s ∈ ld, ∃ m ∈ s.2.by_mod_and_language, ∃ e ∈ m.2, e.1 = l) ∨
        (∃ c ∈ bl.getD [], c.1 = l)) := by
  intro md ld bl l
  simp only [save_mod_settings_payload, save_locales, mem_sortStrings,
    List.mem_dedup, List.mem_append, List.mem_flatMap, List.mem_map]

/-! ### C1/C9 — crash-safe persistence in `save_mod_settings_data`

The on-disk state is the pair (target path, `.bak` sibling); the chosen path
(temporary or final) only changes which payload is written.  An interruption
(`KeyboardInterrupt`) can only occur during the `json.dump` write, leaving
either a truncated file or no file at the target; the source catches it,
unlinks any partial output, restores the backup, and does not re-raise. -/

inductive FileData where
  | complete (a : Artifact)
  | truncated
deriving DecidableEq

/-- Contents of the target path and of its `.bak` sibling (`none` = absent). -/
structure DiskState where
  target : Option FileData
  backup : Option FileData
deriving DecidableEq

/-- The `json.dump` attempt: on interruption the write stops inside the
`try`, leaving a truncated file (or nothing) at the target; the state at the
moment the exception is raised is carried on the `error` side. -/
def attempt_write (fs1 : DiskState) (a : Artifact)
    (interrupted partialWritten : Bool) : Except DiskState DiskState :=
  if interrupted then
    Except.error
      { fs1 with target := if partialWritten then some FileData.truncated else none }
  else
    Except.ok { fs1 with target := some (FileData.complete a) }

/-- `save_mod_settings_data` acting on the disk: rename any existing target
to `.bak`, attempt the write, on `KeyboardInterrupt` unlink the partial
output and rename the backup back (the exception is swallowed), and finally
unlink any remaining backup. -/
def save_mod_settings_data_run (fs : DiskState)
    (mod_data : List (String × ModRec)) (locale_data : List (String × SettingData))
    (by_locale : Option (List (String × List (String × String))))
    (temporary interrupted partialWritten : Bool) : Except Unit DiskState :=
  let a := save_mod_settings_payload mod_data locale_data by_locale temporary
  -- if path.exists(): path.rename(backup_path)
  let fs1 : DiskState :=
    match fs.target with
    | some d => { target := none, backup := some d }
    | none => fs
  -- try: json.dump(...)  except KeyboardInterrupt: cleanup (not re-raised)
  let fs2 : DiskState :=
    match attempt_write fs1 a interrupted partialWritten with
    | .ok f => f
    | .error fI =>
      -- if path.exists(): path.unlink()
      let fI1 : DiskState := { fI with target := none }
      -- if backup_path.exists(): backup_path.rename(path)
      match fI1.backup with
      | some d => { target := some d, backup := none }
      | none => fI1
  -- if backup_path.exists(): backup_path.unlink()
  Except.ok { fs2 with backup := none }

/-- C1: starting from a state with no stale `.bak` file, any run of
`save_mod_settings_data` (temporary or final) completes with: no backup left
behind, never a truncated file at the target, the previous artifact restored
when the write was interrupted, and the new complete artifact otherwise. -/
theorem save_mod_settings_data_crash_safe :
    ∀ (fs : DiskState) md ld bl (tmp intr pw : Bool), fs.backup = none →
      fs.target ≠ some FileData.truncated →
      ∃ fs', save_mod_settings_data_run fs md ld bl tmp intr pw = Except.ok fs' ∧
        fs'.backup = none ∧
        fs'.target ≠ some FileData.truncated ∧
        (intr = true → fs'.target = fs.target) ∧
        (intr = false →
          fs'.target = some (FileData.complete (save_mod_settings_payload md ld bl tmp))) := by
  rintro ⟨t, b⟩ md ld bl tmp intr pw h ht
  simp only at h ht
  subst h
  cases intr with
  | true =>
    cases t with
    | none => exact ⟨_, rfl, by simp [save_mod_settings_data_run, attempt_write]⟩
    | some d =>
      refine ⟨_, rfl, ?_⟩
      simp [save_mod_settings_data_run, attempt_write]
      intro hd
      exact ht (by rw [hd])
  | false =>
    cases t <;> exact ⟨_, rfl, by simp [save_mod_settings_data_run, attempt_write]⟩

/-- Witness for C1's theorem at a concrete input (interrupted write over an
existing artifact). -/
theorem save_mod_settings_data_crash_safe_witness :
    ∃ fs', save_mod_settings_data_run
        ⟨some (FileData.complete (save_mod_settings_payload [] [] none false)), none⟩
        [] [] none true true true = Except.ok fs' ∧
      fs'.backup = none ∧
      fs'.target ≠ some FileData.truncated ∧
      (true = true → fs'.target =
        some (FileData.complete (save_mod_settings_payload [] [] none false))) ∧
      (true = false →
        fs'.target = some (FileData.complete (save_mod_settings_payload [] [] none true))) :=
  save_mod_settings_data_crash_safe
    ⟨some (FileData.complete (save_mod_settings_payload [] [] none false)), none⟩
    [] [] none true true true rfl (by simp)

lemma save_run_ok :
    ∀ (fs : DiskState) md ld bl (tmp intr pw : Bool),
      ∃ fs', save_mod_settings_data_run fs md ld bl tmp intr pw = Except.ok fs' := by
  rintro ⟨t, b⟩ md ld bl tmp intr pw
  cases t <;> cases b <;> cases intr <;> exact ⟨_, rfl⟩

/-- One checkpoint save per processed batch in `get_mods_settings_locale_data`:
`save_mod_settings_data(mod_data, locale_data, temporary=True)`. -/
def checkpoint_loop :
    DiskState →
      List ((List (String × ModRec)) × (List (String × SettingData)) × Bool × Bool) →
      Except Unit DiskState
  | fs, [] => Except.ok fs
  | fs, it :: rest =>
    match save_mod_settings_data_run fs it.1 it.2.1 none true it.2.2.1 it.2.2.2 with
    | .error u => .error u
    | .ok s => checkpoint_loop s rest

/-- C9: a `KeyboardInterrupt` raised during the artifact write is caught in
`save_mod_settings_data` and not re-raised: every save returns normally
(`Except.ok`), and consequently the caller's ingestion loop runs through all
remaining checkpoint batches instead of terminating. -/
theorem keyboard_interrupt_not_reraised :
    (∀ (fs : DiskState) md ld bl (tmp intr pw : Bool),
      ∃ fs', save_mod_settings_data_run fs md ld bl tmp intr pw = Except.ok fs') ∧
    (∀ items (fs : DiskState), ∃ fs', checkpoint_loop fs items = Except.ok fs') := by
  refine ⟨save_run_ok, ?_⟩
  intro items
  induction items with
  | nil => intro fs; exact ⟨fs, rfl⟩
  | cons it rest ih =>
    intro fs
    obtain ⟨s, hs⟩ := save_run_ok fs it.1 it.2.1 none true it.2.2.1 it.2.2.2
    obtain ⟨fs', hfs'⟩ := ih s
    refine ⟨fs', ?_⟩
    simp only [checkpoint_loop, hs]
    exact hfs'

/-! ### C3/C7 — version-skip logic of `iterate_mods_from_api` and the
driver's package-record update for skipped items

A catalog item carries `name`, `title` and release info; `latest_release`
is modelled by its version (`none` = key absent), `releases` by the list of
release versions. -/

structure CatalogItem where
  name : String
  title : String
  latest_release : Option String
  releases : List String
deriving DecidableEq

/-- The catalog-side version of an item: the `latest_release` version, else
`max(release["version"] for release in item["releases"])`, else absent.
This computation appears identically in `iterate_mods_from_api` and in
`get_mod_info`. -/
def catalog_new_version (item : CatalogItem) : Option String :=
  match item.latest_release with
  | some v => some v
  | none =>
    match item.releases with
    | [] => none
    | v :: vs => some (pyStrMaxList v vs)

/-- Python falsiness of `excluding_mods[name].get("version")`:
`None` and `""` are falsy. -/
def versionFalsy : Option String → Bool
  | none => true
  | some s => s == ""

/-- The skip decision of `iterate_mods_from_api` for one catalog item:
`item["name"] in excluding_mods` and then
`not existing_version or existing_version >= new_version`.  When the stored
version is truthy and the item carries neither a `latest_release` nor any
release, Python evaluates `str >= None`, a `TypeError` (`Except.error`). -/
def iterate_mods_should_skip (excluding_mods : List (String × ModRec))
    (item : CatalogItem) : Except Unit Bool :=
  match excluding_mods.lookup item.name with
  | none => Except.ok false
  | some rec =>
    if versionFalsy rec.version then Except.ok true
    else
      match rec.version, catalog_new_version item with
      | some ev, some nv => Except.ok (pyStrLe nv ev)
      | some _, none => Except.error ()
      | none, _ => Except.ok true

/-- `get_mod_info(None, mod_api_data)`: with no archive the identity falls
back to the catalog record — name, title, and the catalog version. -/
def get_mod_info_from_catalog (item : CatalogItem) : String × String × Option String :=
  (item.name, item.title, catalog_new_version item)

/-- Replace the value stored under a key (first occurrence), as a Python
dict entry assignment. -/
def updFirst : List (String × ModRec) → String → ModRec → List (String × ModRec)
  | [], _, _ => []
  | (k, v) :: rest, nm, r =>
    if k = nm then (k, r) :: rest else (k, v) :: updFirst rest nm r

/-- `mod_data.setdefault(mod_name, {...}).update({"name": ..., "title": ...,
"version": ...})` in the driver loop: an existing record keeps its
`setting_names` but has name/title/version overwritten; a missing record is
appended with empty `setting_names`. -/
def mod_data_register (mod_data : List (String × ModRec)) (nm title : String)
    (ver : Option String) : List (String × ModRec) :=
  match mod_data.lookup nm with
  | some rec => updFirst mod_data nm { rec with name := nm, title := title, version := ver }
  | none => mod_data ++ [(nm, { name := nm, title := title, version := ver, setting_names := [] })]

/-- The driver's processing of one item yielded as a skip
(`zip_file = None`): `get_mod_info` succeeds from the catalog data and the
record is registered; nothing else happens (`print("Skipping ...")`). -/
def process_skipped_item (mod_data : List (String × ModRec))
    (item : CatalogItem) : List (String × ModRec) :=
  let info := get_mod_info_from_catalog item
  mod_data_register mod_data info.1 info.2.1 info.2.2

lemma pyListLe_refl : ∀ cs : List Char, pyListLe cs cs = true := by
  intro cs
  induction cs with
  | nil => rfl
  | cons c rest ih => simp [pyListLe, ih]

lemma updFirst_lookup_self :
    ∀ (md : List (String × ModRec)) (nm : String) (rec : ModRec),
      md.lookup nm = some rec → updFirst md nm rec = md := by
  intro md nm rec
  induction md with
  | nil => intro h; simp [List.lookup] at h
  | cons kv rest ih =>
    obtain ⟨k, v⟩ := kv
    intro h
    by_cases hk : k = nm
    · subst hk
      rw [List.lookup, beq_self_eq_true] at h
      simp only [Option.some.injEq] at h
      simp [updFirst, h]
    · have hne : (nm == k) = false := by
        simp [beq_eq_false_iff_ne]
        exact fun he => hk he.symm
      rw [List.lookup, hne] at h
      simp [updFirst, hk, ih h]

/-- C3 counterexample: (a) a catalog item whose name is in `excluding_mods`
but whose already-ingested record has NO version is yielded as a skip, though
the claim requires the ingested version to be present and ≥; (b) when the
stored version is present but the item carries no release info, the
comparison `str >= None` raises a `TypeError` instead of yielding at all. -/
theorem skip_despite_missing_version :
    (iterate_mods_should_skip
        [("m", { name := "m", title := "T", version := none, setting_names := [] })]
        { name := "m", title := "T2", latest_release := some "2.0", releases := [] }
      = Except.ok true) ∧
    (iterate_mods_should_skip
        [("m", { name := "m", title := "T", version := some "1.0", setting_names := [] })]
        { name := "m", title := "T2", latest_release := none, releases := [] }
      = Except.error ()) := ⟨rfl, rfl⟩

/-- C3 (amended): an item is yielded as a skip iff its name is a key of
`excluding_mods` and the stored version is either absent/empty (Python-falsy)
or ≥ the catalog's version (the `latest_release` version, else the maximum
release version); every other item is yielded as non-skip — provided that
whenever the stored version is truthy the item carries some release info
(otherwise the generator raises a `TypeError` rather than yielding). -/
theorem iterate_mods_skip_iff :
    ∀ (ex : List (String × ModRec)) (item : CatalogItem),
      (∀ rec, ex.lookup item.name = some rec → versionFalsy rec.version = false →
        (catalog_new_version item).isSome = true) →
      ((iterate_mods_should_skip ex item = Except.ok true ↔
          (∃ rec, ex.lookup item.name = some rec ∧
            (versionFalsy rec.version = true ∨
              ∃ ev nv, rec.version = some ev ∧ catalog_new_version item = some nv ∧
                pyStrLe nv ev = true))) ∧
        (iterate_mods_should_skip ex item = Except.ok false ↔
          ¬ (∃ rec, ex.lookup item.name = some rec ∧
            (versionFalsy rec.version = true ∨
              ∃ ev nv, rec.version = some ev ∧ catalog_new_version item = some nv ∧
                pyStrLe nv ev = true)))) := by
  intro ex item hdef
  cases hl : ex.lookup item.name with
  | none =>
    constructor
    · simp [iterate_mods_should_skip, hl]
    · simp [iterate_mods_should_skip, hl]
  | some rec =>
    by_cases hf : versionFalsy rec.version = true
    · constructor
      · simp [iterate_mods_should_skip, hl, hf]
      · simp [iterate_mods_should_skip, hl, hf]
    · have hf' : versionFalsy rec.version = false := by
        simpa using hf
      have hcs := hdef rec hl hf'
      obtain ⟨nv, hnv⟩ : ∃ nv, catalog_new_version item = some nv := by
        cases hcv : catalog_new_version item
        · rw [hcv] at hcs; simp at hcs
        · exact ⟨_, rfl⟩
      obtain ⟨ev, hev⟩ : ∃ ev, rec.version = some ev := by
        cases hrv : rec.version
        · rw [hrv] at hf'; simp [versionFalsy] at hf'
        · exact ⟨_, rfl⟩
      constructor
      · cases hle : pyStrLe nv ev <;>
          simp [iterate_mods_should_skip, hl, hf', hev, hnv, hle]
      · cases hle : pyStrLe nv ev <;>
          simp [iterate_mods_should_skip, hl, hf', hev, hnv, hle]

/-- Witness for C3's amended theorem at a concrete input. -/
theorem iterate_mods_skip_iff_witness :
    ((iterate_mods_should_skip
        [("m", { name := "m", title := "T", version := some "1.0", setting_names := [] })]
        { name := "m", title := "T", latest_release := some "1.0", releases := [] }
        = Except.ok true ↔
        (∃ rec, List.lookup "m"
            [("m", ({ name := "m", title := "T", version := some "1.0",
                      setting_names := [] } : ModRec))] = some rec ∧
          (versionFalsy rec.version = true ∨
            ∃ ev nv, rec.version = some ev ∧
              catalog_new_version
                { name := "m", title := "T", latest_release := some "1.0",
                  releases := [] } = some nv ∧
              pyStrLe nv ev = true))) ∧
      (iterate_mods_should_skip
        [("m", { name := "m", title := "T", version := some "1.0", setting_names := [] })]
        { name := "m", title := "T", latest_release := some "1.0", releases := [] }
        = Except.ok false ↔
        ¬ (∃ rec, List.lookup "m"
            [("m", ({ name := "m", title := "T", version := some "1.0",
                      setting_names := [] } : ModRec))] = some rec ∧
          (versionFalsy rec.version = true ∨
            ∃ ev nv, rec.version = some ev ∧
              catalog_new_version
                { name := "m", title := "T", latest_release := some "1.0",
                  releases := [] } = some nv ∧
              pyStrLe nv ev = true)))) :=
  iterate_mods_skip_iff
    [("m", { name := "m", title := "T", version := some "1.0", setting_names := [] })]
    { name := "m", title := "T", latest_release := some "1.0", releases := [] }
    (fun _ _ _ => rfl)

/-- C7 counterexample: a package whose catalog version is unchanged is
yielded as a skip, yet processing the skipped item changes the stored record
— the driver's `.update(...)` overwrites `title` with the catalog's title. -/
theorem skip_overwrites_stored_title :
    (iterate_mods_should_skip
        [("m", { name := "m", title := "Old", version := some "1.0", setting_names := ["s"] })]
        { name := "m", title := "New", latest_release := some "1.0", releases := [] }
      = Except.ok true) ∧
    (process_skipped_item
        [("m", { name := "m", title := "Old", version := some "1.0", setting_names := ["s"] })]
        { name := "m", title := "New", latest_release := some "1.0", releases := [] }
      ≠ [("m", { name := "m", title := "Old", version := some "1.0", setting_names := ["s"] })]) := by
  constructor
  · rfl
  · decide

/-- C7 (amended): for every package already present in the resumed checkpoint
whose catalog version AND catalog title are unchanged, re-running yields it
as a skip and is a no-op on the packages map: the stored record and every
other entry are unchanged. -/
theorem skip_noop_when_version_and_title_unchanged :
    ∀ (mod_data : List (String × ModRec)) (item : CatalogItem) (rec : ModRec),
      mod_data.lookup item.name = some rec →
      rec.name = item.name →
      rec.title = item.title →
      rec.version = catalog_new_version item →
      iterate_mods_should_skip mod_data item = Except.ok true ∧
      process_skipped_item mod_data item = mod_data := by
  intro mod_data item rec hl hn ht hv
  constructor
  · simp only [iterate_mods_should_skip, hl]
    rw [← hv]
    cases hrv : rec.version with
    | none => simp [versionFalsy]
    | some ev =>
      by_cases he : ev = ""
      · simp [versionFalsy, he]
      · simp [versionFalsy, he, pyStrLe, pyListLe_refl]
  · simp only [process_skipped_item, get_mod_info_from_catalog, mod_data_register, hl]
    have hrec : ({ rec with
                    name := item.name, title := item.title,
                    version := catalog_new_version item } : ModRec) = rec := by
      cases rec
      simp only at hn ht hv
      simp [hn, ht, hv]
    rw [hrec]
    exact updFirst_lookup_self mod_data item.name rec hl

/-- Witness for C7's amended theorem at a concrete input. -/
theorem skip_noop_witness :
    iterate_mods_should_skip
        [("m", { name := "m", title := "T", version := some "1.0", setting_names := ["s"] })]
        { name := "m", title := "T", latest_release := some "1.0", releases := [] }
      = Except.ok true ∧
    process_skipped_item
        [("m", { name := "m", title := "T", version := some "1.0", setting_names := ["s"] })]
        { name := "m", title := "T", latest_release := some "1.0", releases := [] }
      = [("m", { name := "m", title := "T", version := some "1.0", setting_names := ["s"] })] :=
  skip_noop_when_version_and_title_unchanged
    [("m", { name := "m", title := "T", version := some "1.0", setting_names := ["s"] })]
    { name := "m", title := "T", latest_release := some "1.0", releases := [] }
    { name := "m", title := "T", version := some "1.0", setting_names := ["s"] }
    rfl rfl rfl rfl

/-! ### C4/C10 — legacy-schema patterns and `get_settings_locale_from_config`

`RE_OLD_LOCALE_SECTION_FORMAT = re.compile("(.*)_(?:map|pref|user)_settings",
re.IGNORECASE)` and `RE_OLD_LOCALE_DESCRIPTION_FORMAT =
re.compile("(.*)-desc", re.IGNORECASE)` are both used through `.match`,
which anchors at the start of the string only: the group `(.*)` is greedy,
so the captured text is the longest prefix whose remainder still starts
with the rest of the pattern, and trailing characters after the pattern are
ignored. -/

/-- Case-insensitive `startswith` (ASCII case folding, as the patterns are
ASCII): does the text start with the pattern? -/
def startsWithCI : List Char → List Char → Bool
  | [], _ => true
  | _ :: _, [] => false
  | p :: ps, c :: cs => (p.toLower == c.toLower) && startsWithCI ps cs

/-- The part of the section regex after the group:
`_(?:map|pref|user)_settings` matched case-insensitively at this position. -/
def legacyTail (cs : List Char) : Bool :=
  startsWithCI "_map_settings".data cs || startsWithCI "_pref_settings".data cs ||
    startsWithCI "_user_settings".data cs

/-- The part of the description regex after the group: `-desc`. -/
def descTail (cs : List Char) : Bool := startsWithCI "-desc".data cs

/-- `re.match` of `(.*)<tail>`: the greedy group is the longest prefix whose
remainder satisfies the tail; `none` when the pattern does not match. -/
def greedyGroup (tp : List Char → Bool) : List Char → Option (List Char)
  | [] => none
  | c :: cs =>
    match greedyGroup tp cs with
    | some p => some (c :: p)
    | none => if tp (c :: cs) then some [] else none

/-- `RE_OLD_LOCALE_SECTION_FORMAT.match(section)` with its captured group. -/
def legacy_section_group (s : String) : Option String :=
  (greedyGroup legacyTail s.data).map (fun p => String.mk p)

/-- `RE_OLD_LOCALE_DESCRIPTION_FORMAT.match(key)` with its captured group. -/
def desc_key_group (s : String) : Option String :=
  (greedyGroup descTail s.data).map (fun p => String.mk p)

/-- `f"{prefix}_{suffix}".replace("-", "_")`. -/
def derive_setting_name (pfx sfx : String) : String :=
  String.mk ((pfx.data ++ '_' :: sfx.data).map (fun c => if c = '-' then '_' else c))

/-- One update produced by the config walk: a call to `add_setting_label` or
`add_setting_description`. -/
inductive SettingUpdate where
  | label (setting_name value : String)
  | description (setting_name value : String)
deriving DecidableEq

/-- Classification of one key of a matched legacy section. -/
def legacy_key_update (pfx key value : String) : SettingUpdate :=
  match desc_key_group key with
  | some sfx => SettingUpdate.description (derive_setting_name pfx sfx) value
  | none => SettingUpdate.label (derive_setting_name pfx key) value

/-- The updates contributed by one section of the legacy loop of
`get_settings_locale_from_config`. -/
def legacy_section_updates (sect : String) (items : List (String × String)) :
    List SettingUpdate :=
  match legacy_section_group sect with
  | none => []
  | some pfx => items.map (fun kv => legacy_key_update pfx kv.1 kv.2)

/-- A parsed `RawConfigParser` state: the `DEFAULT` entries and the named
sections, in insertion order (keys already normalized by the parser). -/
structure RawConfig where
  defaults : List (String × String)
  sections : List (String × List (String × String))
deriving DecidableEq

/-- `name in config`: the default section or a stored section. -/
def hasSection (cfg : RawConfig) (nm : String) : Bool :=
  nm == "DEFAULT" || cfg.sections.any (fun s => s.1 == nm)

/-- `config.items(section)`: the defaults, overridden in place by the
section's own entries, followed by the section-only keys. -/
def dictItems (cfg : RawConfig) (nm : String) : List (String × String) :=
  if nm == "DEFAULT" then cfg.defaults
  else
    match cfg.sections.lookup nm with
    | none => cfg.defaults
    | some own =>
      cfg.defaults.map (fun kv =>
        match own.lookup kv.1 with
        | some v => (kv.1, v)
        | none => kv)
      ++ own.filter (fun kv => (cfg.defaults.lookup kv.1).isNone)

/-- `for section in config`: the default section first, then the sections. -/
def allSectionNames (cfg : RawConfig) : List String :=
  "DEFAULT" :: cfg.sections.map (fun s => s.1)

/-- `get_settings_locale_from_config` on an already-parsed config: the
modern `mod-setting-name` / `mod-setting-description` sections first, then
the legacy loop over every section. -/
def get_settings_locale_updates (cfg : RawConfig) : List SettingUpdate :=
  (if hasSection cfg "mod-setting-name" then
    (dictItems cfg "mod-setting-name").map (fun kv => SettingUpdate.label kv.1 kv.2)
  else [])
  ++ (if hasSection cfg "mod-setting-description" then
    (dictItems cfg "mod-setting-description").map
      (fun kv => SettingUpdate.description kv.1 kv.2)
  else [])
  ++ (allSectionNames cfg).flatMap (fun s => legacy_section_updates s (dictItems cfg s))

lemma startsWithCI_append :
    ∀ (p cs ds : List Char), startsWithCI p cs = true →
      startsWithCI p (cs ++ ds) = true := by
  intro p
  induction p with
  | nil => intro cs ds _; rfl
  | cons x ps ih =>
    intro cs ds h
    cases cs with
    | nil => simp [startsWithCI] at h
    | cons c cs' =>
      simp only [startsWithCI, Bool.and_eq_true] at h ⊢
      exact ⟨h.1, ih cs' ds h.2⟩

lemma startsWithCI_self_append :
    ∀ (p ds : List Char), startsWithCI p (p ++ ds) = true := by
  intro p
  induction p with
  | nil => intro ds; rfl
  | cons x ps ih =>
    intro ds
    simp only [List.cons_append, startsWithCI, Bool.and_eq_true]
    exact ⟨by simp, ih ds⟩

lemma greedyGroup_isSome_of_tail (tp : List Char → Bool) (hnil : tp [] = false) :
    ∀ (p q : List Char), tp q = true → (greedyGroup tp (p ++ q)).isSome = true := by
  intro p
  induction p with
  | nil =>
    intro q hq
    cases q with
    | nil => rw [hq] at hnil; cases hnil
    | cons c q' =>
      simp only [List.nil_append, greedyGroup]
      cases hgg : greedyGroup tp q' with
      | some x => simp
      | none => simp [hq]
  | cons c p' ih =>
    intro q hq
    have h1 := ih q hq
    rw [List.cons_append]
    rw [show greedyGroup tp (c :: (p' ++ q))
          = (match greedyGroup tp (p' ++ q) with
             | some p => some (c :: p)
             | none => if tp (c :: (p' ++ q)) then some [] else none) from rfl]
    cases hgg : greedyGroup tp (p' ++ q) with
    | some x => simp
    | none => rw [hgg] at h1; simp at h1

lemma greedyGroup_sound (tp : List Char → Bool) :
    ∀ (cs p : List Char), greedyGroup tp cs = some p →
      ∃ q, cs = p ++ q ∧ tp q = true := by
  intro cs
  induction cs with
  | nil => intro p h; simp [greedyGroup] at h
  | cons c cs' ih =>
    intro p h
    cases hgg : greedyGroup tp cs' with
    | some p' =>
      rw [greedyGroup, hgg] at h
      simp only [Option.some.injEq] at h
      obtain ⟨q, hq, htq⟩ := ih p' hgg
      exact ⟨q, by rw [← h, hq]; rfl, htq⟩
    | none =>
      rw [greedyGroup, hgg] at h
      by_cases htp : tp (c :: cs') = true
      · rw [if_pos htp] at h
        simp only [Option.some.injEq] at h
        exact ⟨c :: cs', by rw [← h]; rfl, htp⟩
      · rw [if_neg htp] at h
        cases h

/-- C4: in a parsed config section matched by the legacy pattern
`<prefix>_(map|pref|user)_settings` (case-insensitive on the keywords), a key
matched by `<suffix>-desc` yields a description update for the derived id
`<prefix>_<suffix>` with hyphens turned to underscores, and every key the
description pattern does not match yields a label update for
`<prefix>_<key>`; in particular the `boiler_map_settings` example produces
description "Steam output" and label "Output" for setting id
`boiler_output`. -/
theorem legacy_section_locale_updates :
    (∀ (pfx key sfx value : String), desc_key_group key = some sfx →
      legacy_key_update pfx key value =
        SettingUpdate.description (derive_setting_name pfx sfx) value) ∧
    (∀ (pfx key value : String), desc_key_group key = none →
      legacy_key_update pfx key value =
        SettingUpdate.label (derive_setting_name pfx key) value) ∧
    (∀ (sect pfx : String) (items : List (String × String)),
      legacy_section_group sect = some pfx →
      legacy_section_updates sect items =
        items.map (fun kv => legacy_key_update pfx kv.1 kv.2)) ∧
    (legacy_section_group "boiler_map_settings" = some "boiler" ∧
      legacy_section_group "boiler_MAP_Settings" = some "boiler" ∧
      legacy_section_group "boiler_Pref_settings" = some "boiler" ∧
      legacy_section_group "boiler_USER_SETTINGS" = some "boiler") ∧
    (derive_setting_name "multi-part" "my-key" = "multi_part_my_key") ∧
    (get_settings_locale_updates
        ⟨[], [("boiler_map_settings",
               [("output-desc", "Steam output"), ("output", "Output")])]⟩ =
      [SettingUpdate.description "boiler_output" "Steam output",
       SettingUpdate.label "boiler_output" "Output"]) := by
  refine ⟨?_, ?_, ?_, by decide, by decide, by decide⟩
  · intro pfx key sfx value h
    simp [legacy_key_update, h]
  · intro pfx key value h
    simp [legacy_key_update, h]
  · intro sect pfx items h
    simp [legacy_section_updates, h]

/-- Witness for C4's theorem at a concrete input. -/
theorem legacy_section_locale_updates_witness :
    legacy_key_update "boiler" "output-desc" "Steam output" =
      SettingUpdate.description (derive_setting_name "boiler" "output") "Steam output" :=
  legacy_section_locale_updates.1 "boiler" "output-desc" "output" "Steam output" (by decide)

/-- C10: the legacy patterns match by prefix only — a section name beginning
with text matching `<prefix>_(map|pref|user)_settings` matches even with
trailing characters; a key containing `-desc` followed by further characters
(e.g. `output-description`) matches the description pattern, with the derived
suffix being the text before a `-desc` occurrence; and such keys are
classified as descriptions rather than labels. -/
theorem legacy_patterns_match_by_prefix :
    (∀ pfx kw rest : List Char, legacyTail kw = true →
      (greedyGroup legacyTail (pfx ++ kw ++ rest)).isSome = true) ∧
    (∀ a rest : List Char,
      (greedyGroup descTail (a ++ "-desc".data ++ rest)).isSome = true) ∧
    (∀ key sfx : String, desc_key_group key = some sfx →
      ∃ q, key.data = sfx.data ++ q ∧ startsWithCI "-desc".data q = true) ∧
    (∀ (pfx key value : String), (desc_key_group key).isSome = true →
      ∃ nm v, legacy_key_update pfx key value = SettingUpdate.description nm v) ∧
    (get_settings_locale_updates
        ⟨[], [("boiler_map_settingsXYZ", [("output-description", "D")])]⟩ =
      [SettingUpdate.description "boiler_output" "D"]) := by
  refine ⟨?_, ?_, ?_, ?_, by decide⟩
  · intro pfx kw rest hkw
    have htail : legacyTail (kw ++ rest) = true := by
      simp only [legacyTail, Bool.or_eq_true] at hkw ⊢
      rcases hkw with (h | h) | h
      · exact Or.inl (Or.inl (startsWithCI_append _ kw rest h))
      · exact Or.inl (Or.inr (startsWithCI_append _ kw rest h))
      · exact Or.inr (startsWithCI_append _ kw rest h)
    have := greedyGroup_isSome_of_tail legacyTail rfl pfx (kw ++ rest) htail
    rwa [← List.append_assoc] at this
  · intro a rest
    have htail : descTail ("-desc".data ++ rest) = true :=
      startsWithCI_self_append "-desc".data rest
    have := greedyGroup_isSome_of_tail descTail rfl a ("-desc".data ++ rest) htail
    rwa [← List.append_assoc] at this
  · intro key sfx h
    simp only [desc_key_group, Option.map_eq_some'] at h
    obtain ⟨p, hp, hmk⟩ := h
    obtain ⟨q, hq, htq⟩ := greedyGroup_sound descTail key.data p hp
    refine ⟨q, ?_, htq⟩
    rw [hq, ← hmk]
  · intro pfx key value h
    obtain ⟨sfx, hsfx⟩ := Option.isSome_iff_exists.mp h
    exact ⟨derive_setting_name pfx sfx, value, by simp [legacy_key_update, hsfx]⟩

/-- Witness for C10's theorem at a concrete input. -/
theorem legacy_patterns_match_by_prefix_witness :
    (greedyGroup legacyTail ("boiler".data ++ "_map_settings".data ++ "XYZ".data)).isSome
      = true :=
  legacy_patterns_match_by_prefix.1 "boiler".data "_map_settings".data "XYZ".data (by decide)

/-! ### C8 — BOM handling in `get_mod_settings_locale_data`

Bytes are decoded with Python's strict UTF-8 (`config_source.decode()`); a
`UnicodeDecodeError` skips the file.  If the decoded text contains U+FEFF
anywhere, the bytes are redecoded with `utf-8-sig`, which strips one leading
BOM byte sequence if present.  The decoded text then goes through the
`RawConfigParser(strict=False)` parse (with the `[DEFAULT]` fallback on
`MissingSectionHeaderError`, and zero updates on `ParsingError`). -/

/-- Is this byte a UTF-8 continuation byte? -/
def utf8Cont (b : Nat) : Bool := 128 ≤ b && b ≤ 191

/-- Classify a UTF-8 lead byte: `none` for invalid lead bytes (stray
continuation bytes, the overlong leads `C0`/`C1`, and `F5`–`FF`), otherwise
the number of continuation bytes and the initial code-point accumulator. -/
def utf8Lead (b : Nat) : Option (Nat × Nat) :=
  if b < 128 then some (0, b)
  else if b < 194 then none
  else if b < 224 then some (1, b - 192)
  else if b < 240 then some (2, b - 224)
  else if b < 245 then some (3, b - 240)
  else none

/-- Consume `k` continuation bytes, accumulating the code point. -/
def utf8TakeCont : Nat → Nat → List Nat → Option (Nat × List Nat)
  | 0, cp, bs => some (cp, bs)
  | k + 1, cp, bs =>
    match bs with
    | [] => none
    | b :: rest =>
      if utf8Cont b then utf8TakeCont k (cp * 64 + (b - 128)) rest else none

/-- Smallest code point encodable with `k` continuation bytes (overlong
encodings are rejected below it). -/
def utf8Min : Nat → Nat
  | 0 => 0
  | 1 => 128
  | 2 => 2048
  | _ => 65536

/-- A decoded code point is accepted iff it is not overlong for its sequence
length, not a surrogate, and at most U+10FFFF — exactly the sequences
CPython's strict codec accepts. -/
def validCp (k cp : Nat) : Bool :=
  utf8Min k ≤ cp && cp ≤ 1114111 && !(55296 ≤ cp && cp ≤ 57343)

/-- Fuel-driven strict UTF-8 decoding; the fuel bounds the number of decoded
characters, so the list's length is always enough. -/
def utf8DecodeF : Nat → List Nat → Option (List Char)
  | _, [] => some []
  | 0, _ :: _ => none
  | fuel + 1, b :: bs =>
    match utf8Lead b with
    | none => none
    | some (k, base) =>
      match utf8TakeCont k base bs with
      | none => none
      | some (cp, rest) =>
        if validCp k cp then
          (utf8DecodeF fuel rest).map (fun cs => Char.ofNat cp :: cs)
        else none

/-- Strict UTF-8 decoding (`bytes.decode()`): rejects truncated sequences,
stray continuation bytes, overlong encodings, surrogates and values beyond
U+10FFFF, like CPython's strict codec. -/
def utf8Decode (bs : List Nat) : Option (List Char) := utf8DecodeF bs.length bs

/-- U+FEFF. -/
def bomChar : Char := Char.ofNat 65279

/-- The UTF-8 encoding of U+FEFF. -/
def bomBytes : List Nat := [239, 187, 191]

def startsWithBOMBytes : List Nat → Bool
  | b0 :: b1 :: b2 :: _ => b0 == 239 && b1 == 187 && b2 == 191
  | _ => false

/-- What `utf-8-sig` strips before decoding. -/
def stripBOMBytes (bs : List Nat) : List Nat :=
  match bs with
  | b0 :: b1 :: b2 :: rest =>
    if b0 == 239 && b1 == 187 && b2 == 191 then rest else bs
  | _ => bs

/-- `bytes.decode("utf-8-sig")`. -/
def utf8SigDecode (bs : List Nat) : Option (List Char) := utf8Decode (stripBOMBytes bs)

/-- The decode step of `get_mod_settings_locale_data` for one locale file:
strict decode, skip (`none`) on failure, redecode with `utf-8-sig` whenever
the text contains a BOM character. -/
def decode_locale_bytes (bs : List Nat) : Option (List Char) :=
  match utf8Decode bs with
  | none => none
  | some cs => if bomChar ∈ cs then utf8SigDecode bs else some cs

/-! Model of `configparser.RawConfigParser(strict=False).read_string` as the
source uses it: full-line `#`/`;` comments, `[section]` headers (`[` at the
start of the stripped line, header up to the first `]`, trailing text
ignored), `key = value` / `key : value` options split at the first
delimiter with the key lowercased by `optionxform`, indentation-based
continuation lines, `MissingSectionHeaderError` for content before any
section, and collected errors for undelimited lines reported as a final
`ParsingError`. -/

inductive ConfigError where
  | missingSectionHeader
  | parsingError
deriving DecidableEq

/-- Python whitespace for `str.strip`. -/
def pyIsSpace (c : Char) : Bool :=
  c == ' ' || c == '\t' || c == '\r' || c == '\n' || c == '\x0b' || c == '\x0c'

def trimLeftL (cs : List Char) : List Char := cs.dropWhile pyIsSpace

def rstripL (cs : List Char) : List Char := (cs.reverse.dropWhile pyIsSpace).reverse

def trimL (cs : List Char) : List Char := rstripL (trimLeftL cs)

/-- Position of the first non-whitespace character (the line's indent). -/
def indentOf (cs : List Char) : Nat := (cs.takeWhile pyIsSpace).length

def toLowerL (cs : List Char) : List Char := cs.map Char.toLower

/-- Split on `'\n'` as `io.StringIO` iteration does. -/
def splitLinesChar : List Char → List Char → List (List Char)
  | [], acc => [acc.reverse]
  | c :: rest, acc =>
    if c = '\n' then acc.reverse :: splitLinesChar rest []
    else splitLinesChar rest (c :: acc)

/-- `SECTCRE.match(value)`: `\[([^]]+)\]`, trailing characters ignored. -/
def headerOf (v : List Char) : Option (List Char) :=
  match v with
  | '[' :: rest =>
    let hd := rest.takeWhile (fun c => !(c == ']'))
    match rest.drop hd.length with
    | ']' :: _ => if hd.isEmpty then none else some hd
    | _ => none
  | _ => none

/-- Index of the first `=` or `:` (the option/value delimiter). -/
def findDelim : List Char → Option Nat
  | [] => none
  | c :: rest =>
    if c == '=' || c == ':' then some 0 else (findDelim rest).map (fun n => n + 1)

/-- Dict entry assignment: replace in place, append if absent. -/
def assocSetFirst : List (String × String) → String → String → List (String × String)
  | [], k, v => [(k, v)]
  | (k0, v0) :: rest, k, v =>
    if k0 = k then (k0, v) :: rest else (k0, v0) :: assocSetFirst rest k v

/-- Append text to the value stored under a key (multi-line values). -/
def assocAppendVal : List (String × String) → String → String → List (String × String)
  | [], _, _ => []
  | (k0, v0) :: rest, k, add =>
    if k0 = k then (k0, v0 ++ add) :: rest else (k0, v0) :: assocAppendVal rest k add

structure ParseState where
  defaults : List (String × String)
  sections : List (String × List (String × String))
  cursect : Option String
  curopt : Option String
  indentLevel : Nat
  hadError : Bool
deriving DecidableEq

def stateSetOpt (st : ParseState) (sect k v : String) : ParseState :=
  if sect = "DEFAULT" then { st with defaults := assocSetFirst st.defaults k v }
  else
    { st with sections :=
        st.sections.map (fun s => if s.1 = sect then (s.1, assocSetFirst s.2 k v) else s) }

def stateAppendOpt (st : ParseState) (sect k add : String) : ParseState :=
  if sect = "DEFAULT" then { st with defaults := assocAppendVal st.defaults k add }
  else
    { st with sections :=
        st.sections.map (fun s => if s.1 = sect then (s.1, assocAppendVal s.2 k add) else s) }

def ensureSection (st : ParseState) (nm : String) : ParseState :=
  if nm = "DEFAULT" then st
  else if st.sections.any (fun s => s.1 == nm) then st
  else { st with sections := st.sections ++ [(nm, [])] }

/-- One line of `RawConfigParser._read`. -/
def parseLine (st : ParseState) (line : List Char) : Except ConfigError ParseState :=
  let stripped := trimL line
  let isComment :=
    match stripped with
    | c :: _ => c == '#' || c == ';'
    | [] => false
  if isComment then Except.ok st
  else if stripped.isEmpty then
    -- empty_lines_in_values: a blank (non-comment) line inside an option
    -- contributes an empty continuation line
    match st.cursect, st.curopt with
    | some sect, some o =>
      if o = "" then Except.ok st else Except.ok (stateAppendOpt st sect o "\n")
    | _, _ => Except.ok st
  else
    let ind := indentOf line
    let contOk :=
      match st.cursect, st.curopt with
      | some _, some o => !(o == "") && decide (ind > st.indentLevel)
      | _, _ => false
    if contOk then
      match st.cursect, st.curopt with
      | some sect, some o =>
        Except.ok (stateAppendOpt st sect o ("\n" ++ String.mk stripped))
      | _, _ => Except.ok st
    else
      let st1 := { st with indentLevel := ind }
      match headerOf stripped with
      | some hd =>
        let nm := String.mk hd
        Except.ok { ensureSection st1 nm with cursect := some nm, curopt := none }
      | none =>
        match st1.cursect with
        | none => Except.error ConfigError.missingSectionHeader
        | some sect =>
          match findDelim stripped with
          | none => Except.ok { st1 with hadError := true }
          | some i =>
            let key := String.mk (toLowerL (rstripL (stripped.take i)))
            let value := String.mk (trimL (stripped.drop (i + 1)))
            let st2 := if i = 0 then { st1 with hadError := true } else st1
            Except.ok { stateSetOpt st2 sect key value with curopt := some key }

/-- `'\n'.join(lines).rstrip()` applied to every stored value. -/
def finalizeValues (st : ParseState) : RawConfig :=
  { defaults := st.defaults.map (fun kv => (kv.1, String.mk (rstripL kv.2.data)))
    sections :=
      st.sections.map (fun s =>
        (s.1, s.2.map (fun kv => (kv.1, String.mk (rstripL kv.2.data))))) }

/-- `config.read_string(text)`. -/
def parse_config_text (cs : List Char) : Except ConfigError RawConfig := do
  let st ← (splitLinesChar cs []).foldlM parseLine
    { defaults := [], sections := [], cursect := none, curopt := none,
      indentLevel := 0, hadError := false }
  if st.hadError then Except.error ConfigError.parsingError
  else Except.ok (finalizeValues st)

/-- `get_settings_locale_from_config` from raw text: the `[DEFAULT]`
fallback on a missing section header, and zero updates when the
(re-)parse fails. -/
def get_settings_locale_from_config_text (cs : List Char) : List SettingUpdate :=
  match parse_config_text cs with
  | .ok cfg => get_settings_locale_updates cfg
  | .error ConfigError.missingSectionHeader =>
    match parse_config_text ("[DEFAULT]\r\n".data ++ cs) with
    | .ok cfg => get_settings_locale_updates cfg
    | .error _ => []
  | .error ConfigError.parsingError => []

/-- One locale file of `get_mod_settings_locale_data`: decode (skip on
failure), then parse. -/
def updates_from_bytes (bs : List Nat) : List SettingUpdate :=
  match decode_locale_bytes bs with
  | none => []
  | some cs => get_settings_locale_from_config_text cs

/-- The per-file loop over a package's locale files. -/
def locale_files_updates (files : List (List Nat)) : List SettingUpdate :=
  files.flatMap updates_from_bytes

/-- The UTF-8 bytes of an ASCII string. -/
def asciiBytes (s : String) : List Nat := s.data.map (fun c => c.toNat)

lemma utf8TakeCont_le :
    ∀ (k cp : Nat) (bs : List Nat) (cp2 : Nat) (rest : List Nat),
      utf8TakeCont k cp bs = some (cp2, rest) → rest.length ≤ bs.length := by
  intro k
  induction k with
  | zero =>
    intro cp bs cp2 rest h
    rw [utf8TakeCont] at h
    simp only [Option.some.injEq, Prod.mk.injEq] at h
    rw [← h.2]
  | succ k ih =>
    intro cp bs cp2 rest h
    cases bs with
    | nil => rw [utf8TakeCont] at h; cases h
    | cons b t =>
      rw [utf8TakeCont] at h
      by_cases hc : utf8Cont b = true
      · rw [if_pos hc] at h
        have := ih _ t cp2 rest h
        simp only [List.length_cons]
        omega
      · rw [if_neg hc] at h; cases h

lemma utf8DecodeF_fuel_irrel :
    ∀ (fuel : Nat) (bs : List Nat), bs.length ≤ fuel →
      utf8DecodeF fuel bs = utf8Decode bs := by
  intro fuel
  induction fuel using Nat.strong_induction_on with
  | _ fuel ih =>
    intro bs hle
    cases bs with
    | nil =>
      rw [utf8DecodeF.eq_1]
      rfl
    | cons b t =>
      simp only [List.length_cons] at hle
      obtain ⟨f, rfl⟩ : ∃ f, fuel = f + 1 := ⟨fuel - 1, by omega⟩
      rw [show utf8Decode (b :: t) = utf8DecodeF (Nat.succ t.length) (b :: t) from rfl]
      rw [show f + 1 = Nat.succ f from rfl]
      rw [utf8DecodeF.eq_3, utf8DecodeF.eq_3]
      cases hlb : utf8Lead b with
      | none => rfl
      | some kb =>
        obtain ⟨k, base⟩ := kb
        dsimp only
        cases htc : utf8TakeCont k base t with
        | none => rfl
        | some cr =>
          obtain ⟨cp, rest⟩ := cr
          dsimp only
          have hr : rest.length ≤ t.length := utf8TakeCont_le k base t cp rest htc
          by_cases hv : validCp k cp = true
          · rw [if_pos hv, if_pos hv]
            rw [ih f (by omega) rest (by omega)]
            rw [ih t.length (by omega) rest hr]
          · rw [if_neg hv, if_neg hv]

lemma stripBOM_bom_append (bs : List Nat) : stripBOMBytes (bomBytes ++ bs) = bs := rfl

lemma stripBOM_of_not_bom (bs : List Nat) (h : startsWithBOMBytes bs = false) :
    stripBOMBytes bs = bs := by
  cases bs with
  | nil => rfl
  | cons b0 t0 =>
    cases t0 with
    | nil => rfl
    | cons b1 t1 =>
      cases t1 with
      | nil => rfl
      | cons b2 rest =>
        simp only [startsWithBOMBytes] at h
        simp [stripBOMBytes, h]

lemma utf8Decode_bom_cons (bs : List Nat) :
    utf8Decode (bomBytes ++ bs) = (utf8Decode bs).map (fun cs => bomChar :: cs) := by
  have hl : utf8Lead 239 = some (2, 15) := rfl
  have ht : utf8TakeCont 2 15 (187 :: 191 :: bs) = some (65279, bs) := rfl
  have hv : validCp 2 65279 = true := rfl
  show utf8DecodeF (239 :: 187 :: 191 :: bs).length (239 :: 187 :: 191 :: bs) = _
  rw [show (239 :: 187 :: 191 :: bs).length = Nat.succ (bs.length + 2) by
        simp [List.length_cons]]
  rw [utf8DecodeF.eq_3, hl]
  simp only [ht, hv, if_pos]
  rw [utf8DecodeF_fuel_irrel (bs.length + 2) bs (by omega)]
  rfl

/-- C8 counterexample: the BOM round-trip fails when the bytes after the
leading BOM themselves begin with a BOM.  For the file
`BOM BOM "[mod-setting-name]\nfoo = bar"`, the byte-identical file without
the (leading) BOM parses to one label update, but the original yields zero
updates: `utf-8-sig` strips only one BOM, the leftover U+FEFF prevents the
section header from being recognized, and the `[DEFAULT]` fallback then
fails with a `ParsingError`. -/
theorem double_bom_parse_differs :
    (bomBytes ++ bomBytes ++ asciiBytes "[mod-setting-name]\nfoo = bar"
      = bomBytes ++ (bomBytes ++ asciiBytes "[mod-setting-name]\nfoo = bar")) ∧
    updates_from_bytes
        (bomBytes ++ (bomBytes ++ asciiBytes "[mod-setting-name]\nfoo = bar")) = [] ∧
    updates_from_bytes (bomBytes ++ asciiBytes "[mod-setting-name]\nfoo = bar")
      = [SettingUpdate.label "foo" "bar"] := by
  refine ⟨by decide, by decide, by decide⟩

/-- C8 (amended): parsing a locale file whose bytes carry a BOM produces
exactly the same updates as the byte-identical file without the BOM,
provided the remaining bytes do not themselves begin with another BOM; if
the strict UTF-8 decode contains a BOM character the bytes are redecoded
with BOM-aware UTF-8; and a strict-decode failure yields zero updates and
processing continues with the remaining files. -/
theorem bom_roundtrip_updates :
    (∀ bs : List Nat, startsWithBOMBytes bs = false →
      updates_from_bytes (bomBytes ++ bs) = updates_from_bytes bs) ∧
    (∀ (bs : List Nat) (cs : List Char), utf8Decode bs = some cs → bomChar ∈ cs →
      decode_locale_bytes bs = utf8SigDecode bs) ∧
    (∀ bs : List Nat, utf8Decode bs = none → updates_from_bytes bs = []) ∧
    (∀ (bs : List Nat) (rest : List (List Nat)), utf8Decode bs = none →
      locale_files_updates (bs :: rest) = locale_files_updates rest) := by
  refine ⟨?_, ?_, ?_, ?_⟩
  · intro bs h
    have hb := utf8Decode_bom_cons bs
    cases hdec : utf8Decode bs with
    | none =>
      rw [hdec] at hb
      simp only [Option.map_none'] at hb
      simp [updates_from_bytes, decode_locale_bytes, hb, hdec]
    | some cs =>
      rw [hdec] at hb
      simp only [Option.map_some'] at hb
      have hsig : utf8SigDecode (bomBytes ++ bs) = some cs := by
        rw [utf8SigDecode, stripBOM_bom_append, hdec]
      have hsig2 : utf8SigDecode bs = some cs := by
        rw [utf8SigDecode, stripBOM_of_not_bom bs h, hdec]
      by_cases hmem : bomChar ∈ cs
      · simp [updates_from_bytes, decode_locale_bytes, hb, hdec, hmem, hsig, hsig2]
      · simp [updates_from_bytes, decode_locale_bytes, hb, hdec, hmem, hsig]
  · intro bs cs h hm
    simp [decode_locale_bytes, h, hm]
  · intro bs h
    simp [updates_from_bytes, decode_locale_bytes, h]
  · intro bs rest h
    simp [locale_files_updates, updates_from_bytes, decode_locale_bytes, h]

/-- Witness for C8's amended theorem at a concrete input. -/
theorem bom_roundtrip_updates_witness :
    updates_from_bytes (bomBytes ++ asciiBytes "[mod-setting-name]\nfoo = bar")
      = updates_from_bytes (asciiBytes "[mod-setting-name]\nfoo = bar") :=
  bom_roundtrip_updates.1 (asciiBytes "[mod-setting-name]\nfoo = bar") (by decide)
